import Mathlib

/-!
Verification development for the inverse Haar cascade program (`jpegface.py`).

The program evaluates an OpenCV-style Haar rejection cascade (`Cascade.detect`)
and builds a mixed-integer linear model (`CascadeModel`) whose feasible
assignments are meant to materialize into images the cascade accepts.

The embedding below translates the arithmetic core of the source into Lean:
floating point values become exact rationals, numpy 2D arrays become
row-major `List (List ℚ)` grids, and the docplex model becomes an explicit
list of linear constraints evaluated against variable assignments.
-/

namespace JpegFace

/-- One weighted axis-aligned rectangle of a Haar feature
(source `Rect = namedtuple('Rect', ['x', 'y', 'w', 'h', 'weight'])`). -/
structure Rect where
  x : ℕ
  y : ℕ
  w : ℕ
  h : ℕ
  weight : ℚ
deriving DecidableEq

/-- A feature is an ordered list of weighted rectangles
(one entry of the source's `features` list). -/
abbrev Feature := List Rect

/-- Source `WeakClassifier = namedtuple(..., ['feature_idx', 'threshold',
'fail_val', 'pass_val'])`. -/
structure WeakClassifier where
  feature_idx : ℕ
  threshold : ℚ
  fail_val : ℚ
  pass_val : ℚ
deriving DecidableEq

/-- Source `Stage = namedtuple('Stage', ['threshold', 'weak_classifiers'])`. -/
structure Stage where
  threshold : ℚ
  weak_classifiers : List WeakClassifier
deriving DecidableEq

/-- Source `Cascade(width, height, stages, features)`. -/
structure Cascade where
  width : ℕ
  height : ℕ
  stages : List Stage
  features : List Feature
deriving DecidableEq

/-- 2D grids model numpy arrays of reals, row-major: `gridGet g r c` is
`g[r][c]` (row `r` = the source's `y`, column `c` = the source's `x`). -/
abbrev Grid := List (List ℚ)

/-- Cell read; out-of-range reads default to 0 (the program only reads
in-range cells of shape-correct arrays). -/
def gridGet (g : Grid) (r c : ℕ) : ℚ := (g.getD r []).getD c 0

/-- The numpy shape of a rectangular 2D array: (rows, columns). -/
def gridShape (g : Grid) : ℕ × ℕ := (g.length, (g.getD 0 []).length)

/-- `numpy.zeros((height, width))`. -/
def zeroGrid (height width : ℕ) : Grid :=
  List.replicate height (List.replicate width 0)

/-- numpy slice-add `out[y:(y+h), x:(x+w)] += weight`: every cell of the grid
whose (row, column) index lies in the rectangle's footprint gains `weight`;
the footprint is silently clipped to the grid's bounds because indices beyond
the grid simply do not occur. -/
def gridAddRect (g : Grid) (rect : Rect) : Grid :=
  g.mapIdx fun r row => row.mapIdx fun c v =>
    if rect.y ≤ r ∧ r < rect.y + rect.h ∧ rect.x ≤ c ∧ c < rect.x + rect.w then v + rect.weight
    else v

/-- Source `Cascade.feature_to_array`: start from `numpy.zeros((height, width))`
and add each rectangle's weight over its footprint in turn. -/
def Cascade.feature_to_array (cas : Cascade) (idx : ℕ) : Grid :=
  (cas.features.getD idx []).foldl gridAddRect (zeroGrid cas.height cas.width)

/-- `numpy.sum(a * b)` for two arrays read at the cascade's shape
(height rows, width columns). -/
def imageSum (height width : ℕ) (a b : Grid) : ℚ :=
  ((List.range height).map fun r =>
    ((List.range width).map fun c => gridGet a r c * gridGet b r c).sum).sum

/-- The detector's normalization `im /= 256. * (self.height * self.width)`. -/
def normalizeIm (cas : Cascade) (im : Grid) : Grid :=
  im.map (List.map fun v => v / (256 * (cas.height * cas.width)))

/-- One stage's running total: each weak classifier contributes `pass_val`
when `numpy.sum(feature_array * im) >= classifier.threshold` on the
normalized image `im`, else `fail_val`. -/
def Cascade.stageTotal (cas : Cascade) (im : Grid) (st : Stage) : ℚ :=
  (st.weak_classifiers.map fun cl =>
    if cl.threshold ≤ imageSum cas.height cas.width (cas.feature_to_array cl.feature_idx) im
    then cl.pass_val else cl.fail_val).sum

/-- The stage loop of `Cascade.detect`: stages in order; the first stage whose
total falls below its threshold returns `-stage_idx`; if none does, return 1. -/
def detectLoop (cas : Cascade) (im : Grid) : List Stage → ℕ → ℤ
  | [], _ => 1
  | st :: rest, idx =>
    if cas.stageTotal im st < st.threshold then -(idx : ℤ)
    else detectLoop cas im rest (idx + 1)

/-- Source `Cascade.detect` on a size-matched image (when the input's shape
differs from `(height, width)` the source first replaces it with the output of
the external resampler `cv2.resize`; at matching dimensions that step is the
identity, and the heap model below covers the aliasing of the full prelude).
The image is normalized and the stage loop is run from stage index 0. -/
def Cascade.detect (cas : Cascade) (im : Grid) : ℤ :=
  detectLoop cas (normalizeIm cas im) cas.stages 0

/-- Pointwise characterization of a feature's dense grid: total weight of the
rectangles whose footprint covers the cell. -/
def rectWeightSum (f : Feature) (r c : ℕ) : ℚ :=
  (f.map fun rect =>
    if rect.y ≤ r ∧ r < rect.y + rect.h ∧ rect.x ≤ c ∧ c < rect.x + rect.w then rect.weight
    else 0).sum

/-- A grid is a rectangular `height × width` array. -/
def GridShape (g : Grid) (height width : ℕ) : Prop :=
  g.length = height ∧ ∀ r, r < height → (g.getD r []).length = width

/-- Build a rectangular grid from a cell function (the shape of a Python
list-of-lists comprehension over `range(height)` / `range(width)`). -/
def mkGrid (height width : ℕ) (f : ℕ → ℕ → ℚ) : Grid :=
  (List.range height).map fun r => (List.range width).map fun c => f r c

/-- Assignment of values to the model's pixel variables, keyed `(x, y)` as in
the source's `pixel_vars[x, y]`. -/
abbrev PixAssign := ℕ → ℕ → ℚ

/-- Assignment of values to the model's per-feature binary variables. -/
abbrev FeatAssign := ℕ → ℚ

/-- A linear constraint as passed to `model.add_constraint`: an expression in
the decision variables compared against a bound — `isGe` true for
`expr >= rhs`, false for `expr <= rhs`. -/
structure LinCon where
  lhs : PixAssign → FeatAssign → ℚ
  isGe : Bool
  rhs : ℚ

/-- The given variable assignment satisfies the constraint. -/
def LinCon.sat (con : LinCon) (p : PixAssign) (fv : FeatAssign) : Prop :=
  if con.isGe then con.rhs ≤ con.lhs p fv else con.lhs p fv ≤ con.rhs

instance (con : LinCon) (p : PixAssign) (fv : FeatAssign) : Decidable (con.sat p fv) := by
  unfold LinCon.sat
  infer_instance

/-- `feature_array /= (cascade.width * cascade.height)` — the dense feature
grid rescaled before constraint emission. -/
def scaledFeatureArray (cas : Cascade) (idx : ℕ) : Grid :=
  (cas.feature_to_array idx).map (List.map fun v => v / (cas.width * cas.height))

/-- The pixel part of a classifier's constraint:
`sum(pixel_vars[x, y] * feature_array[y, x] for y in range(height)
for x in range(width) if feature_array[y, x] != 0.)` over the scaled grid. -/
def classifierPixelSum (cas : Cascade) (idx : ℕ) (p : PixAssign) : ℚ :=
  ((List.range cas.height).map fun y =>
    ((List.range cas.width).map fun x =>
      if gridGet (scaledFeatureArray cas idx) y x ≠ 0 then
        p x y * gridGet (scaledFeatureArray cas idx) y x
      else 0).sum).sum

/-- The one constraint emitted for a weak classifier. With
`pass_val >= fail_val` the source adds
`pixelSum - (threshold + epsilon) * feature_var >= 0`; otherwise it adds
`pixelSum + (threshold - epsilon) * feature_var <= threshold - epsilon`. -/
def classifierCon (cas : Cascade) (eps : ℚ) (cl : WeakClassifier) : LinCon :=
  if cl.fail_val ≤ cl.pass_val then
    { lhs := fun p fv =>
        classifierPixelSum cas cl.feature_idx p - (cl.threshold + eps) * fv cl.feature_idx
      isGe := true
      rhs := 0 }
  else
    { lhs := fun p fv =>
        classifierPixelSum cas cl.feature_idx p + (cl.threshold - eps) * fv cl.feature_idx
      isGe := false
      rhs := cl.threshold - eps }

/-- The one constraint emitted for a stage:
`sum((pass_val - fail_val) * feature_var) >= (stage.threshold + epsilon)
- sum(fail_val)`. -/
def stageCon (eps : ℚ) (st : Stage) : LinCon :=
  { lhs := fun _ fv =>
      (st.weak_classifiers.map fun cl => (cl.pass_val - cl.fail_val) * fv cl.feature_idx).sum
    isGe := true
    rhs := (st.threshold + eps) - (st.weak_classifiers.map fun cl => cl.fail_val).sum }

/-- All constraints `CascadeModel.__init__` adds to the docplex model, in
emission order: for each stage, one constraint per weak classifier followed by
the stage's aggregate constraint. -/
def modelConstraints (cas : Cascade) (eps : ℚ) : List LinCon :=
  cas.stages.flatMap fun st =>
    (st.weak_classifiers.map fun cl => classifierCon cas eps cl) ++ [stageCon eps st]

/-- The assignment satisfies everything `CascadeModel.__init__` imposes: the
`[0, 1]` bounds of each `pixel_{x}_{y}` continuous variable (declared for
`y in range(height)`, `x in range(width)`), binariness of each `feature_{idx}`
variable (declared for `idx in range(len(features))`), and every emitted
constraint. -/
def satisfiesModel (cas : Cascade) (eps : ℚ) (p : PixAssign) (fv : FeatAssign) : Prop :=
  (∀ y ∈ List.range cas.height, ∀ x ∈ List.range cas.width, 0 ≤ p x y ∧ p x y ≤ 1) ∧
  (∀ idx ∈ List.range cas.features.length, fv idx = 0 ∨ fv idx = 1) ∧
  (∀ con ∈ modelConstraints cas eps, con.sat p fv)

/-- The pixel grid materialized from a model assignment: the image whose
intensity at `(x, y)` is 256 times pixel variable `(x, y)`. -/
def materialize (cas : Cascade) (p : PixAssign) : Grid :=
  mkGrid cas.height cas.width fun y x => 256 * p x y

/-- Source `find_min_face` from the solve onward. `none` models `model.solve()`
returning a falsy result (the source raises); `some sol` models success, with
`sol x y` the value `pixel_vars[x, y].solution_value`. The read-back
`numpy.array([[...solution_value for x in range(cascade.width)]
for y in range(cascade.height)])` is returned as is. -/
def find_min_face (cas : Cascade) (solveResult : Option PixAssign) : Except String Grid :=
  match solveResult with
  | none => Except.error "Failed to find solution"
  | some sol => Except.ok (mkGrid cas.height cas.width fun y x => sol x y)

/-- The default stage used for out-of-range list reads in statements. -/
def defaultStage : Stage := ⟨0, []⟩

/-- A 1×1 cascade whose single classifier rewards the presence of the
all-ones single-rectangle feature. -/
def posCascade : Cascade :=
  { width := 1, height := 1,
    stages := [⟨1/2, [⟨0, 1/4, -1, 1⟩]⟩],
    features := [[⟨0, 0, 1, 1, 1⟩]] }

def posPix : PixAssign := fun _ _ => 1

def posFeat : FeatAssign := fun _ => 1

/-- A 1×1 cascade whose single classifier rewards the absence of the all-ones
feature (`pass_val < fail_val`): at `epsilon = 0` the encoding lets the pixel
sum sit exactly on the classifier threshold, where the detector still scores
the classifier as passing. -/
def tieCascade : Cascade :=
  { width := 1, height := 1,
    stages := [⟨1, [⟨0, 1/2, 1, 0⟩]⟩],
    features := [[⟨0, 0, 1, 1, 1⟩]] }

def tiePix : PixAssign := fun _ _ => 1/2

def tieFeat : FeatAssign := fun _ => 0

/-- A 1×1 cascade with two stages: on the zero image the first stage passes
and the second stage's total falls below its threshold. -/
def seqCascade : Cascade :=
  { width := 1, height := 1,
    stages := [⟨0, [⟨0, 0, 0, 1⟩]⟩, ⟨1, [⟨0, 2, 0, 0⟩]⟩],
    features := [[⟨0, 0, 1, 1, 1⟩]] }

def seqIm : Grid := mkGrid 1 1 fun _ _ => 0

/-- A 1×1 cascade whose single (0-th) stage rejects the zero image. -/
def rejCascade : Cascade :=
  { width := 1, height := 1,
    stages := [⟨1, [⟨0, 2, 0, 0⟩]⟩],
    features := [[⟨0, 0, 1, 1, 1⟩]] }

/-- A 2×2 cascade with one feature of two overlapping rectangles
(weights 3 and 5, both covering cell row 0, column 1). -/
def ovCascade : Cascade :=
  { width := 2, height := 2,
    stages := [],
    features := [[⟨0, 0, 2, 2, 3⟩, ⟨1, 0, 1, 2, 5⟩]] }

/-- A 1×1 cascade whose only rectangle's 7×9 footprint extends far beyond
the grid. -/
def oobCascade : Cascade :=
  { width := 1, height := 1,
    stages := [],
    features := [[⟨0, 0, 7, 9, 2⟩]] }

/-- The per-classifier constraint exactly as the spec words it (§4.4), with
the full, unfiltered pixel sum `Σ pixel(x,y)·featuregrid(y,x)` over the
`1/(width×height)`-scaled feature grid; used as the reference against the
source's emitted constraint (whose sum skips zero coefficients). -/
def specClassifierConstraint (cas : Cascade) (eps : ℚ) (cl : WeakClassifier)
    (p : PixAssign) (fv : FeatAssign) : Prop :=
  if cl.pass_val ≥ cl.fail_val then
    0 ≤ ((List.range cas.height).map fun y =>
      ((List.range cas.width).map fun x =>
        p x y * gridGet (scaledFeatureArray cas cl.feature_idx) y x).sum).sum -
      (cl.threshold + eps) * fv cl.feature_idx
  else
    ((List.range cas.height).map fun y =>
      ((List.range cas.width).map fun x =>
        p x y * gridGet (scaledFeatureArray cas cl.feature_idx) y x).sum).sum +
      (cl.threshold - eps) * fv cl.feature_idx ≤ cl.threshold - eps

/-- A single-classifier stage used by witnesses. -/
def exStage : Stage := ⟨1, [⟨0, 0, -1, 2⟩]⟩

/-- An all-ones feature-variable assignment used by witnesses. -/
def exB : FeatAssign := fun _ => 1

/-! The loader (`Cascade.load`): the XML location and whitespace splitting
(`xml.etree`, `_split_text_content`) are external collaborators; the
description below is the located, already-split token structure. Numeric
text is interpreted by an abstract partial `intOf` standing for Python's
`int()` and an abstract partial `floatOf` for Python's `float()`; a failed
conversion, a missing node, or a failed sentinel assertion is a load error,
as in the source. -/

/-- A weak-classifier node: the whitespace-split tokens of its
`internalNodes` and `leafValues` text. -/
structure ClassifierNode where
  internalNodes : List String
  leafValues : List String

/-- A stage node: its `stageThreshold` text and its classifier nodes. -/
structure StageNode where
  stageThreshold : String
  weakClassifiers : List ClassifierNode

/-- A feature node: one whitespace-split token list per `rects/_` entry. -/
structure FeatureNode where
  rects : List (List String)

/-- The located, text-split cascade description. -/
structure CascadeDesc where
  width : String
  height : String
  stages : List StageNode
  features : List FeatureNode

def parseNatWith (intOf : String → Option ℕ) (s : String) : Except String ℕ :=
  match intOf s with
  | some n => Except.ok n
  | none => Except.error ("invalid int literal: " ++ s)

def parseFloatWith (floatOf : String → Option ℚ) (s : String) : Except String ℚ :=
  match floatOf s with
  | some q => Except.ok q
  | none => Except.error ("invalid float literal: " ++ s)

/-- Sequential effectful traversal (the source's accumulating for-loops). -/
def mapME {α β : Type} (f : α → Except String β) : List α → Except String (List β)
  | [] => Except.ok []
  | a :: t => do
    let b ← f a
    let bs ← mapME f t
    Except.ok (b :: bs)

/-- One weak-classifier node: `assert sp[0] == "0"`, `assert sp[1] == "-1"`,
then `feature_idx = int(sp[2])`, `threshold = float(sp[3])` and the two leaf
values. -/
def parseClassifier (intOf : String → Option ℕ) (floatOf : String → Option ℚ)
    (cn : ClassifierNode) : Except String WeakClassifier :=
  match cn.internalNodes with
  | s0 :: s1 :: s2 :: s3 :: _ =>
    if s0 = "0" then
      if s1 = "-1" then do
        let idx ← parseNatWith intOf s2
        let thr ← parseFloatWith floatOf s3
        match cn.leafValues with
        | f0 :: f1 :: _ => do
          let fail_val ← parseFloatWith floatOf f0
          let pass_val ← parseFloatWith floatOf f1
          Except.ok ⟨idx, thr, fail_val, pass_val⟩
        | _ => Except.error "missing leaf values"
      else Except.error "unsupported internal node shape: sp[1] is not -1"
    else Except.error "unsupported internal node shape: sp[0] is not 0"
  | _ => Except.error "missing internal nodes"

def parseStage (intOf : String → Option ℕ) (floatOf : String → Option ℚ)
    (sn : StageNode) : Except String Stage := do
  let thr ← parseFloatWith floatOf sn.stageThreshold
  let wcs ← mapME (parseClassifier intOf floatOf) sn.weakClassifiers
  Except.ok ⟨thr, wcs⟩

def parseRect (intOf : String → Option ℕ) (floatOf : String → Option ℚ)
    (tokens : List String) : Except String Rect :=
  match tokens with
  | sx :: sy :: sw :: sh :: swt :: _ => do
    let x ← parseNatWith intOf sx
    let y ← parseNatWith intOf sy
    let w ← parseNatWith intOf sw
    let h ← parseNatWith intOf sh
    let wt ← parseFloatWith floatOf swt
    Except.ok ⟨x, y, w, h, wt⟩
  | _ => Except.error "missing rect tokens"

def parseFeature (intOf : String → Option ℕ) (floatOf : String → Option ℚ)
    (fn : FeatureNode) : Except String Feature :=
  mapME (parseRect intOf floatOf) fn.rects

/-- Source `Cascade.load` over a located description. -/
def Cascade.load (intOf : String → Option ℕ) (floatOf : String → Option ℚ)
    (desc : CascadeDesc) : Except String Cascade := do
  let width ← parseNatWith intOf desc.width
  let height ← parseNatWith intOf desc.height
  let stages ← mapME (parseStage intOf floatOf) desc.stages
  let features ← mapME (parseFeature intOf floatOf) desc.features
  Except.ok ⟨width, height, stages, features⟩

/-- A small table standing in for Python's `float()` on the literals of the
example description. -/
def exFloatOf : String → Option ℚ := fun s =>
  if s = "0.5" then some (1/2)
  else if s = "-1." then some (-1)
  else if s = "1." then some 1
  else none

/-- A well-formed one-stage, one-classifier, one-feature description. -/
def exDesc : CascadeDesc :=
  { width := "1", height := "1",
    stages := [⟨"0.5", [⟨["0", "-1", "0", "0.5"], ["-1.", "1."]⟩]⟩],
    features := [⟨[["0", "0", "1", "1", "1."]]⟩] }

/-- A small table standing in for Python's `int()` on the example's
literals. -/
def exIntOf : String → Option ℕ := fun s =>
  if s = "0" then some 0 else if s = "1" then some 1 else none

/-- A heap of numpy array objects; an address is an index into it. -/
abbrev Heap := List Grid

/-- Allocate a fresh array object, returning its address and the new heap. -/
def halloc (hp : Heap) (g : Grid) : ℕ × Heap := (hp.length, hp ++ [g])

def hread (hp : Heap) (a : ℕ) : Grid := hp.getD a []

def hwrite (hp : Heap) (a : ℕ) (g : Grid) : Heap := hp.set a g

/-- `Cascade.detect` with numpy's aliasing made explicit. The caller's image
lives at address `a`. When the shape differs from `(height, width)` the
external `cv2.resize` collaborator (`resizeFn`, content abstract) returns a
fresh array; `im.astype(numpy.float64)` copies into a fresh array; the
in-place division `im /= 256. * (height * width)` writes the array the local
name `im` then denotes — the fresh `astype` copy. The stage loop reads that
normalized copy. -/
def detectHeap (cas : Cascade) (resizeFn : Grid → ℕ → ℕ → Grid) (hp : Heap) (a : ℕ) :
    ℤ × Heap :=
  let s1 :=
    if gridShape (hread hp a) = (cas.height, cas.width) then (a, hp)
    else halloc hp (resizeFn (hread hp a) cas.height cas.width)
  let s2 := halloc s1.2 (hread s1.2 s1.1)
  let hp3 := hwrite s2.2 s2.1 (normalizeIm cas (hread s2.2 s2.1))
  (detectLoop cas (hread hp3 s2.1) cas.stages 0, hp3)

/-! ## Theorems -/

theorem zeroGrid_shape (height width : ℕ) : GridShape (zeroGrid height width) height width := by
  refine ⟨by simp [zeroGrid], ?_⟩
  intro r hr
  rw [zeroGrid, List.getD_eq_getElem _ _ (by simpa using hr)]
  simp

theorem gridGet_zeroGrid (height width r c : ℕ) : gridGet (zeroGrid height width) r c = 0 := by
  have hrow : (zeroGrid height width).getD r [] = List.replicate width 0 ∨
      (zeroGrid height width).getD r [] = [] := by
    rcases Nat.lt_or_ge r height with hr | hr
    · left
      rw [zeroGrid, List.getD_eq_getElem _ _ (by simpa using hr), List.getElem_replicate]
    · right
      rw [zeroGrid, List.getD_eq_default _ _ (by simpa using hr)]
  unfold gridGet
  rcases hrow with h | h <;> rw [h]
  · rcases Nat.lt_or_ge c width with hc | hc
    · rw [List.getD_eq_getElem _ _ (by simpa using hc), List.getElem_replicate]
    · rw [List.getD_eq_default _ _ (by simpa using hc)]
  · simp

theorem getD_mapIdx {α β : Type} (l : List α) (f : ℕ → α → β) (i : ℕ) (d : β) (dl : α)
    (h : i < l.length) :
    (l.mapIdx f).getD i d = f i (l.getD i dl) := by
  have h' : i < (l.mapIdx f).length := by simpa using h
  rw [List.getD_eq_getElem _ _ h', List.getD_eq_getElem _ _ h]
  simp [List.get_mapIdx l f i h h']

theorem gridAddRect_shape {g : Grid} {height width : ℕ} (hs : GridShape g height width)
    (rect : Rect) : GridShape (gridAddRect g rect) height width := by
  obtain ⟨hl, hrow⟩ := hs
  refine ⟨by simp [gridAddRect, hl], ?_⟩
  intro r hr
  have hrg : r < g.length := by rw [hl]; exact hr
  rw [gridAddRect, getD_mapIdx _ _ _ _ [] hrg]
  simpa using hrow r hr

theorem gridGet_gridAddRect {g : Grid} {height width : ℕ} (hs : GridShape g height width)
    (rect : Rect) {r c : ℕ} (hr : r < height) (hc : c < width) :
    gridGet (gridAddRect g rect) r c =
      gridGet g r c +
        (if rect.y ≤ r ∧ r < rect.y + rect.h ∧ rect.x ≤ c ∧ c < rect.x + rect.w
         then rect.weight else 0) := by
  obtain ⟨hl, hrow⟩ := hs
  have hrg : r < g.length := by rw [hl]; exact hr
  have hcr : c < (g.getD r []).length := by rw [hrow r hr]; exact hc
  unfold gridGet gridAddRect
  rw [getD_mapIdx _ _ _ _ [] hrg, getD_mapIdx _ _ _ _ 0 hcr]
  split <;> ring

theorem foldl_gridAddRect_shape {height width : ℕ} (f : Feature) :
    ∀ g : Grid, GridShape g height width → GridShape (f.foldl gridAddRect g) height width := by
  induction f with
  | nil => intro g hg; exact hg
  | cons rect rest ih =>
    intro g hg
    exact ih _ (gridAddRect_shape hg rect)

theorem gridGet_foldl_gridAddRect {height width r c : ℕ} (hr : r < height) (hc : c < width)
    (f : Feature) :
    ∀ g : Grid, GridShape g height width →
      gridGet (f.foldl gridAddRect g) r c = gridGet g r c + rectWeightSum f r c := by
  induction f with
  | nil => intro g _; simp [rectWeightSum]
  | cons rect rest ih =>
    intro g hg
    have hcons : rectWeightSum (rect :: rest) r c =
        (if rect.y ≤ r ∧ r < rect.y + rect.h ∧ rect.x ≤ c ∧ c < rect.x + rect.w
         then rect.weight else 0) + rectWeightSum rest r c := by
      simp [rectWeightSum]
    rw [List.foldl_cons, ih _ (gridAddRect_shape hg rect), gridGet_gridAddRect hg rect hr hc,
      hcons]
    ring

theorem feature_to_array_shape (cas : Cascade) (idx : ℕ) :
    GridShape (cas.feature_to_array idx) cas.height cas.width :=
  foldl_gridAddRect_shape _ _ (zeroGrid_shape _ _)

/-- Cell characterization of the dense feature grid: inside the grid, the cell
holds the accumulated weight of all covering rectangles. -/
theorem gridGet_feature_to_array (cas : Cascade) (idx : ℕ) {r c : ℕ}
    (hr : r < cas.height) (hc : c < cas.width) :
    gridGet (cas.feature_to_array idx) r c = rectWeightSum (cas.features.getD idx []) r c := by
  rw [Cascade.feature_to_array,
    gridGet_foldl_gridAddRect hr hc _ _ (zeroGrid_shape _ _), gridGet_zeroGrid, zero_add]

theorem mkGrid_shape (height width : ℕ) (f : ℕ → ℕ → ℚ) :
    GridShape (mkGrid height width f) height width := by
  refine ⟨by simp [mkGrid], ?_⟩
  intro r hr
  have hr' : r < (mkGrid height width f).length := by simpa [mkGrid] using hr
  rw [List.getD_eq_getElem _ _ hr']
  simp [mkGrid]

theorem gridGet_mkGrid (height width : ℕ) (f : ℕ → ℕ → ℚ) {r c : ℕ}
    (hr : r < height) (hc : c < width) :
    gridGet (mkGrid height width f) r c = f r c := by
  unfold gridGet mkGrid
  have hr' : r < ((List.range height).map fun r => (List.range width).map fun c => f r c).length :=
    by simpa using hr
  rw [List.getD_eq_getElem _ _ hr', List.getElem_map, List.getElem_range]
  have hc' : c < ((List.range width).map fun c => f r c).length := by simpa using hc
  rw [List.getD_eq_getElem _ _ hc', List.getElem_map, List.getElem_range]

theorem gridGet_map_map (f : ℚ → ℚ) (hf : f 0 = 0) (im : Grid) (r c : ℕ) :
    gridGet (im.map (List.map f)) r c = f (gridGet im r c) := by
  unfold gridGet
  have h1 : (im.map (List.map f)).getD r [] = List.map f (im.getD r []) := by
    rcases Nat.lt_or_ge r im.length with hr | hr
    · have hr' : r < (im.map (List.map f)).length := by simpa using hr
      rw [List.getD_eq_getElem _ _ hr', List.getD_eq_getElem _ _ hr, List.getElem_map]
    · have hr' : (im.map (List.map f)).length ≤ r := by simpa using hr
      rw [List.getD_eq_default _ _ hr', List.getD_eq_default _ _ hr]
      simp
  rw [h1]
  rcases Nat.lt_or_ge c (im.getD r []).length with hc | hc
  · have hc' : c < (List.map f (im.getD r [])).length := by simpa using hc
    rw [List.getD_eq_getElem _ _ hc', List.getD_eq_getElem _ _ hc, List.getElem_map]
  · have hc' : (List.map f (im.getD r [])).length ≤ c := by simpa using hc
    rw [List.getD_eq_default _ _ hc', List.getD_eq_default _ _ hc, hf]

theorem sum_map_add {α : Type} (l : List α) (f g : α → ℚ) :
    (l.map fun a => f a + g a).sum = (l.map f).sum + (l.map g).sum := by
  induction l with
  | nil => simp
  | cons a t ih => simp only [List.map_cons, List.sum_cons, ih]; ring

theorem gridGet_scaledFeatureArray (cas : Cascade) (idx r c : ℕ) :
    gridGet (scaledFeatureArray cas idx) r c =
      gridGet (cas.feature_to_array idx) r c / (cas.width * cas.height) := by
  rw [scaledFeatureArray,
    gridGet_map_map (fun v => v / ((cas.width : ℚ) * (cas.height : ℚ))) (zero_div _)]

theorem gridGet_normalizeIm (cas : Cascade) (im : Grid) (r c : ℕ) :
    gridGet (normalizeIm cas im) r c =
      gridGet im r c / (256 * (cas.height * cas.width)) := by
  rw [normalizeIm,
    gridGet_map_map (fun v => v / (256 * ((cas.height : ℚ) * (cas.width : ℚ)))) (zero_div _)]

/-- On the materialized image, the detector's weighted sum for a feature is the
same number as the pixel part of the model's classifier constraint. -/
theorem imageSum_eq_classifierPixelSum (cas : Cascade) (idx : ℕ) (p : PixAssign) :
    imageSum cas.height cas.width (cas.feature_to_array idx)
      (normalizeIm cas (materialize cas p)) = classifierPixelSum cas idx p := by
  unfold imageSum classifierPixelSum
  congr 1
  apply List.map_congr_left
  intro y hy
  rw [List.mem_range] at hy
  congr 1
  apply List.map_congr_left
  intro x hx
  rw [List.mem_range] at hx
  have hH : (cas.height : ℚ) ≠ 0 := by
    exact_mod_cast (Nat.lt_of_le_of_lt (Nat.zero_le _) hy).ne'
  have hW : (cas.width : ℚ) ≠ 0 := by
    exact_mod_cast (Nat.lt_of_le_of_lt (Nat.zero_le _) hx).ne'
  simp only [gridGet_normalizeIm, gridGet_scaledFeatureArray, materialize,
    gridGet_mkGrid _ _ _ hy hx]
  split_ifs with h
  · field_simp
    ring
  · rw [not_not] at h
    rcases div_eq_zero_iff.mp h with h0 | h0
    · rw [h0, zero_mul]
    · exact absurd h0 (mul_ne_zero hW hH)

/-- A weak classifier's true contribution to the stage total is at least its
modeled contribution `fail_val + (pass_val - fail_val) * feature_var`, provided
its emitted constraint holds, the feature variable is binary, and — for a
classifier rewarding the feature's absence — either `epsilon > 0` or the pixel
sum is not exactly at the threshold. -/
theorem classifier_contrib_ge (cas : Cascade) (eps : ℚ) (p : PixAssign) (fv : FeatAssign)
    (cl : WeakClassifier) (heps : 0 ≤ eps)
    (hbin : fv cl.feature_idx = 0 ∨ fv cl.feature_idx = 1)
    (hcon : (classifierCon cas eps cl).sat p fv)
    (htie : cl.pass_val < cl.fail_val →
      0 < eps ∨ classifierPixelSum cas cl.feature_idx p ≠ cl.threshold) :
    cl.fail_val + (cl.pass_val - cl.fail_val) * fv cl.feature_idx ≤
      (if cl.threshold ≤ classifierPixelSum cas cl.feature_idx p
       then cl.pass_val else cl.fail_val) := by
  unfold classifierCon LinCon.sat at hcon
  by_cases hpf : cl.fail_val ≤ cl.pass_val
  · rw [if_pos hpf] at hcon
    simp only [if_true] at hcon
    rcases hbin with hb | hb
    · rw [hb, mul_zero, add_zero]
      split_ifs <;> linarith
    · rw [hb, mul_one] at hcon ⊢
      rw [if_pos (by linarith)]
      linarith
  · rw [if_neg hpf] at hcon
    simp only [Bool.false_eq_true, if_false] at hcon
    have hlt : cl.pass_val < cl.fail_val := lt_of_not_le hpf
    rcases hbin with hb | hb
    · rw [hb, mul_zero, add_zero] at hcon ⊢
      have hout : classifierPixelSum cas cl.feature_idx p < cl.threshold := by
        rcases htie hlt with he | hne
        · linarith
        · rcases lt_or_eq_of_le (by linarith :
            classifierPixelSum cas cl.feature_idx p ≤ cl.threshold) with h | h
          · exact h
          · exact absurd h hne
      rw [if_neg (not_le.mpr hout)]
    · rw [hb, mul_one]
      split_ifs <;> linarith

/-- One stage of the constraint system forces the detector's stage total on the
materialized image to clear the stage threshold. -/
theorem stage_passes (cas : Cascade) (eps : ℚ) (p : PixAssign) (fv : FeatAssign) (st : Stage)
    (heps : 0 ≤ eps)
    (hbin : ∀ cl ∈ st.weak_classifiers, fv cl.feature_idx = 0 ∨ fv cl.feature_idx = 1)
    (hcons : ∀ cl ∈ st.weak_classifiers, (classifierCon cas eps cl).sat p fv)
    (htie : ∀ cl ∈ st.weak_classifiers, cl.pass_val < cl.fail_val →
      0 < eps ∨ classifierPixelSum cas cl.feature_idx p ≠ cl.threshold)
    (hstage : (stageCon eps st).sat p fv) :
    st.threshold ≤ cas.stageTotal (normalizeIm cas (materialize cas p)) st := by
  have hsum : (st.weak_classifiers.map fun cl =>
      cl.fail_val + (cl.pass_val - cl.fail_val) * fv cl.feature_idx).sum ≤
      cas.stageTotal (normalizeIm cas (materialize cas p)) st := by
    unfold Cascade.stageTotal
    apply List.sum_le_sum
    intro cl hcl
    rw [imageSum_eq_classifierPixelSum]
    exact classifier_contrib_ge cas eps p fv cl heps (hbin cl hcl) (hcons cl hcl) (htie cl hcl)
  unfold stageCon LinCon.sat at hstage
  simp only [if_true] at hstage
  rw [sum_map_add] at hsum
  linarith

/-- If no stage's total falls below its threshold, the stage loop accepts. -/
theorem detectLoop_eq_one (cas : Cascade) (im : Grid) (l : List Stage)
    (hall : ∀ st ∈ l, ¬ cas.stageTotal im st < st.threshold) :
    ∀ n : ℕ, detectLoop cas im l n = 1 := by
  induction l with
  | nil => intro n; rfl
  | cons st rest ih =>
    intro n
    rw [detectLoop, if_neg (hall st (by simp))]
    exact ih (fun s hs => hall s (by simp [hs])) (n + 1)

/-- The stage loop returns the negated 0-based index of the first stage whose
total falls below its threshold, offset by the loop's starting index. -/
theorem detectLoop_first_fail (cas : Cascade) (im : Grid) :
    ∀ (l : List Stage) (n i : ℕ), i < l.length →
      (∀ j, j < i → ¬ cas.stageTotal im (l.getD j defaultStage) <
        (l.getD j defaultStage).threshold) →
      cas.stageTotal im (l.getD i defaultStage) < (l.getD i defaultStage).threshold →
      detectLoop cas im l n = -((n + i : ℕ) : ℤ) := by
  intro l
  induction l with
  | nil => intro n i hi; exact absurd hi (by simp)
  | cons st rest ih =>
    intro n i hi hfirst hfail
    match i with
    | 0 =>
      simp only [List.getD_cons_zero] at hfail
      rw [detectLoop, if_pos hfail]
      simp
    | i' + 1 =>
      have hhead : ¬ cas.stageTotal im st < st.threshold := by
        have := hfirst 0 (Nat.succ_pos i')
        simpa using this
      rw [detectLoop, if_neg hhead]
      have hres := ih (n + 1) i' (by simpa using hi)
        (fun j hj => by simpa using hfirst (j + 1) (by omega))
        (by simpa using hfail)
      rw [hres]
      congr 1
      omega

/-- Unpack a classifier's constraint from the model's constraint list. -/
theorem satisfiesModel_classifierCon {cas : Cascade} {eps : ℚ} {p : PixAssign} {fv : FeatAssign}
    (h : satisfiesModel cas eps p fv) {st : Stage} (hst : st ∈ cas.stages)
    {cl : WeakClassifier} (hcl : cl ∈ st.weak_classifiers) :
    (classifierCon cas eps cl).sat p fv := by
  apply h.2.2
  rw [modelConstraints, List.mem_flatMap]
  exact ⟨st, hst, List.mem_append.mpr (Or.inl (List.mem_map_of_mem _ hcl))⟩

/-- Unpack a stage's aggregate constraint from the model's constraint list. -/
theorem satisfiesModel_stageCon {cas : Cascade} {eps : ℚ} {p : PixAssign} {fv : FeatAssign}
    (h : satisfiesModel cas eps p fv) {st : Stage} (hst : st ∈ cas.stages) :
    (stageCon eps st).sat p fv := by
  apply h.2.2
  rw [modelConstraints, List.mem_flatMap]
  exact ⟨st, hst, List.mem_append.mpr (Or.inr (by simp))⟩

theorem rangeOne : List.range 1 = [0] := by decide

theorem imageSum_one (a b : Grid) : imageSum 1 1 a b = gridGet a 0 0 * gridGet b 0 0 := by
  simp [imageSum, rangeOne]

theorem classifierPixelSum_one (cas : Cascade) (hh : cas.height = 1) (hw : cas.width = 1)
    (idx : ℕ) (p : PixAssign) :
    classifierPixelSum cas idx p =
      if rectWeightSum (cas.features.getD idx []) 0 0 ≠ 0 then
        p 0 0 * rectWeightSum (cas.features.getD idx []) 0 0
      else 0 := by
  have hW : (cas.width : ℚ) = 1 := by rw [hw]; norm_num
  have hH : (cas.height : ℚ) = 1 := by rw [hh]; norm_num
  unfold classifierPixelSum
  rw [hh, hw]
  simp only [rangeOne, List.map_cons, List.map_nil, List.sum_cons, List.sum_nil,
    add_zero]
  rw [gridGet_scaledFeatureArray, gridGet_feature_to_array cas idx (by omega) (by omega),
    hW, hH]
  norm_num

/-- **C1** (amended). Soundness of the constraint encoding: for every cascade
with well-formed feature references, every `epsilon ≥ 0` and every variable
assignment satisfying all constraints of the built `CascadeModel` (pixel
variables in `[0,1]`, feature variables binary, all emitted linear
constraints), provided that for each classifier with `pass_val < fail_val`
either `epsilon > 0` or the classifier's pixel sum is not exactly at its
threshold (the amendment — at the default `epsilon = 0` an exact tie defeats
the encoding), the height-by-width grid whose intensity at `(x, y)` is 256
times pixel variable `(x, y)` is accepted: `detect` returns 1. -/
theorem model_soundness (cas : Cascade) (eps : ℚ) (p : PixAssign) (fv : FeatAssign)
    (heps : 0 ≤ eps)
    (hwf : ∀ st ∈ cas.stages, ∀ cl ∈ st.weak_classifiers,
      cl.feature_idx < cas.features.length)
    (htie : ∀ st ∈ cas.stages, ∀ cl ∈ st.weak_classifiers, cl.pass_val < cl.fail_val →
      0 < eps ∨ classifierPixelSum cas cl.feature_idx p ≠ cl.threshold)
    (hsat : satisfiesModel cas eps p fv) :
    cas.detect (materialize cas p) = 1 := by
  unfold Cascade.detect
  apply detectLoop_eq_one
  intro st hst
  rw [not_lt]
  refine stage_passes cas eps p fv st heps ?_ ?_ (htie st hst) (satisfiesModel_stageCon hsat hst)
  · intro cl hcl
    exact hsat.2.1 cl.feature_idx (List.mem_range.mpr (hwf st hst cl hcl))
  · intro cl hcl
    exact satisfiesModel_classifierCon hsat hst hcl

/-- **C1 counterexample**: with the source's default `epsilon = 0`, the
assignment `pixel = 1/2`, `feature_var = 0` satisfies every constraint of the
model built for `tieCascade` (one stage, one weak classifier), yet the
materialized image is rejected by `detect` (it returns 0, not 1): the claim
as stated is false. -/
theorem model_soundness_cex :
    satisfiesModel tieCascade 0 tiePix tieFeat ∧
      tieCascade.detect (materialize tieCascade tiePix) = 0 ∧
      tieCascade.detect (materialize tieCascade tiePix) ≠ 1 := by
  have hpix : classifierPixelSum tieCascade 0 tiePix = 1/2 := by
    rw [classifierPixelSum_one tieCascade rfl rfl]
    norm_num [tieCascade, rectWeightSum, tiePix]
  have hdet : tieCascade.detect (materialize tieCascade tiePix) = 0 := by
    unfold Cascade.detect
    have hst : tieCascade.stages = [⟨1, [⟨0, 1/2, 1, 0⟩]⟩] := rfl
    rw [hst, detectLoop, if_pos ?hlt]
    case hlt =>
      have htot : tieCascade.stageTotal
          (normalizeIm tieCascade (materialize tieCascade tiePix))
          ⟨1, [⟨0, 1/2, 1, 0⟩]⟩ = 0 := by
        unfold Cascade.stageTotal
        simp only [List.map_cons, List.map_nil, List.sum_cons, List.sum_nil, add_zero]
        rw [imageSum_eq_classifierPixelSum, hpix]
        norm_num
      rw [htot]
      norm_num
    · norm_num
  refine ⟨⟨?_, ?_, ?_⟩, hdet, by rw [hdet]; norm_num⟩
  · intro y _ x _
    norm_num [tiePix]
  · intro idx _
    left
    rfl
  · intro con hcon
    rw [modelConstraints, show tieCascade.stages = [⟨1, [⟨0, 1/2, 1, 0⟩]⟩] from rfl] at hcon
    simp only [List.flatMap_cons, List.flatMap_nil, List.map_cons, List.map_nil,
      List.append_nil, List.cons_append, List.nil_append, List.mem_cons,
      List.not_mem_nil, or_false] at hcon
    rcases hcon with h | h
    · subst h
      unfold classifierCon LinCon.sat
      rw [if_neg (by norm_num : ¬ ((1:ℚ) ≤ 0))]
      simp only [Bool.false_eq_true, if_false]
      rw [hpix]
      norm_num [tieFeat]
    · subst h
      unfold stageCon LinCon.sat
      simp only [if_true]
      norm_num [tieFeat]

/-- **C1 witness**: a cascade built with `epsilon = 1/4`, a satisfying
assignment, and the conclusion of `model_soundness` at it. -/
theorem model_soundness_witness :
    satisfiesModel posCascade (1/4) posPix posFeat ∧
      posCascade.detect (materialize posCascade posPix) = 1 := by
  have hpix : classifierPixelSum posCascade 0 posPix = 1 := by
    rw [classifierPixelSum_one posCascade rfl rfl]
    norm_num [posCascade, rectWeightSum, posPix]
  have hsat : satisfiesModel posCascade (1/4) posPix posFeat := by
    refine ⟨?_, ?_, ?_⟩
    · intro y _ x _
      norm_num [posPix]
    · intro idx _
      right
      rfl
    · intro con hcon
      rw [modelConstraints, show posCascade.stages = [⟨1/2, [⟨0, 1/4, -1, 1⟩]⟩] from rfl]
        at hcon
      simp only [List.flatMap_cons, List.flatMap_nil, List.map_cons, List.map_nil,
        List.append_nil, List.cons_append, List.nil_append, List.mem_cons,
        List.not_mem_nil, or_false] at hcon
      rcases hcon with h | h
      · subst h
        unfold classifierCon LinCon.sat
        rw [if_pos (by norm_num : ((-1:ℚ) ≤ 1))]
        simp only [if_true]
        rw [hpix]
        norm_num [posFeat]
      · subst h
        unfold stageCon LinCon.sat
        simp only [if_true]
        norm_num [posFeat]
  refine ⟨hsat, ?_⟩
  apply model_soundness posCascade (1/4) posPix posFeat (by norm_num) ?_ ?_ hsat
  · intro st hst cl hcl
    rw [show posCascade.stages = [⟨1/2, [⟨0, 1/4, -1, 1⟩]⟩] from rfl] at hst
    simp only [List.mem_cons, List.not_mem_nil, or_false] at hst
    subst hst
    simp only [List.mem_cons, List.not_mem_nil, or_false] at hcl
    subst hcl
    norm_num [posCascade]
  · intro st hst cl hcl hlt
    rw [show posCascade.stages = [⟨1/2, [⟨0, 1/4, -1, 1⟩]⟩] from rfl] at hst
    simp only [List.mem_cons, List.not_mem_nil, or_false] at hst
    subst hst
    simp only [List.mem_cons, List.not_mem_nil, or_false] at hcl
    subst hcl
    norm_num at hlt

theorem getD_take_append {α : Type} (l rest : List α) (d : α) (k j : ℕ)
    (hjk : j < k) (hjl : j < l.length) :
    (l.take k ++ rest).getD j d = l.getD j d := by
  have h1 : j < (l.take k).length := by
    rw [List.length_take]
    omega
  have h2 : j < (l.take k ++ rest).length := by
    rw [List.length_append]
    omega
  rw [List.getD_eq_getElem _ _ h2, List.getD_eq_getElem _ _ hjl,
    List.getElem_append_left h1, List.getElem_take]

/-- Replacing the stage list leaves stage totals unchanged (they only read the
cascade's dimensions and features). -/
theorem stageTotal_stages_irrel (cas : Cascade) (s : List Stage) (im : Grid) (st : Stage) :
    Cascade.stageTotal { cas with stages := s } im st = cas.stageTotal im st := rfl

theorem detectLoop_stages_irrel (cas : Cascade) (s : List Stage) (im : Grid) :
    ∀ (l : List Stage) (n : ℕ),
      detectLoop { cas with stages := s } im l n = detectLoop cas im l n := by
  intro l
  induction l with
  | nil => intro n; rfl
  | cons st rest ih =>
    intro n
    rw [detectLoop, detectLoop, ih]
    rfl

/-- **C2**: stages are evaluated in order. If stage `i` is the first whose
total falls below its threshold, `detect` returns `-i`, and it does so for
every continuation of the stage list past `i` (later stages are never
consulted); if every stage's total meets or exceeds its threshold, `detect`
returns 1. -/
theorem detect_sequential (cas : Cascade) (im : Grid) :
    (∀ i, i < cas.stages.length →
      (∀ j, j < i →
        ¬ cas.stageTotal (normalizeIm cas im) (cas.stages.getD j defaultStage) <
          (cas.stages.getD j defaultStage).threshold) →
      cas.stageTotal (normalizeIm cas im) (cas.stages.getD i defaultStage) <
        (cas.stages.getD i defaultStage).threshold →
      (cas.detect im = -(i : ℤ) ∧
        ∀ rest : List Stage,
          Cascade.detect { cas with stages := cas.stages.take (i + 1) ++ rest } im =
            -(i : ℤ))) ∧
    ((∀ st ∈ cas.stages, ¬ cas.stageTotal (normalizeIm cas im) st < st.threshold) →
      cas.detect im = 1) := by
  constructor
  · intro i hi hpass hfail
    constructor
    · rw [Cascade.detect]
      have h := detectLoop_first_fail cas (normalizeIm cas im) cas.stages 0 i hi hpass hfail
      rw [h]
      norm_num
    · intro rest
      rw [Cascade.detect]
      rw [show normalizeIm { cas with stages := cas.stages.take (i + 1) ++ rest } im =
        normalizeIm cas im from rfl]
      rw [show ({ cas with stages := cas.stages.take (i + 1) ++ rest } : Cascade).stages =
        cas.stages.take (i + 1) ++ rest from rfl]
      rw [detectLoop_stages_irrel]
      have hlen : i < (cas.stages.take (i + 1) ++ rest).length := by
        rw [List.length_append, List.length_take]
        omega
      have h := detectLoop_first_fail cas (normalizeIm cas im)
        (cas.stages.take (i + 1) ++ rest) 0 i hlen
        (fun j hj => by
          rw [getD_take_append _ _ _ _ _ (by omega) (by omega)]
          exact hpass j hj)
        (by
          rw [getD_take_append _ _ _ _ _ (by omega) (by omega)]
          exact hfail)
      rw [h]
      norm_num
  · intro hall
    rw [Cascade.detect]
    exact detectLoop_eq_one cas (normalizeIm cas im) cas.stages hall 0

theorem stageTotal_single (cas : Cascade) (im : Grid) (thr : ℚ) (cl : WeakClassifier) :
    cas.stageTotal im ⟨thr, [cl]⟩ =
      if cl.threshold ≤
        imageSum cas.height cas.width (cas.feature_to_array cl.feature_idx) im
      then cl.pass_val else cl.fail_val := by
  unfold Cascade.stageTotal
  simp

theorem detectSum_one (cas : Cascade) (hh : cas.height = 1) (hw : cas.width = 1)
    (idx : ℕ) (im : Grid) :
    imageSum cas.height cas.width (cas.feature_to_array idx) (normalizeIm cas im) =
      rectWeightSum (cas.features.getD idx []) 0 0 * (gridGet im 0 0 / 256) := by
  rw [hh, hw, imageSum_one,
    gridGet_feature_to_array cas idx (by omega) (by omega),
    gridGet_normalizeIm, hh, hw]
  norm_num

theorem seq_fa : rectWeightSum (seqCascade.features.getD 0 []) 0 0 = 1 := by
  norm_num [seqCascade, rectWeightSum]

theorem seq_im_get : gridGet seqIm 0 0 = 0 := by
  rw [seqIm, gridGet_mkGrid _ _ _ (by omega) (by omega)]

theorem seq_stage0 : seqCascade.stageTotal (normalizeIm seqCascade seqIm)
    (⟨0, [⟨0, 0, 0, 1⟩]⟩ : Stage) = 1 := by
  rw [stageTotal_single, detectSum_one seqCascade rfl rfl, seq_fa, seq_im_get]
  norm_num

theorem seq_stage1 : seqCascade.stageTotal (normalizeIm seqCascade seqIm)
    (⟨1, [⟨0, 2, 0, 0⟩]⟩ : Stage) = 0 := by
  rw [stageTotal_single, detectSum_one seqCascade rfl rfl, seq_fa, seq_im_get]
  norm_num

/-- **C2 witness**: on `seqCascade` and the zero image, stage 1 is the first
failing stage and `detect` returns `-1`. -/
theorem detect_sequential_witness :
    (seqCascade.stageTotal (normalizeIm seqCascade seqIm)
        (seqCascade.stages.getD 1 defaultStage) <
      (seqCascade.stages.getD 1 defaultStage).threshold) ∧
    seqCascade.detect seqIm = -1 := by
  have h0 : seqCascade.stages.getD 0 defaultStage = (⟨0, [⟨0, 0, 0, 1⟩]⟩ : Stage) := rfl
  have h1 : seqCascade.stages.getD 1 defaultStage = (⟨1, [⟨0, 2, 0, 0⟩]⟩ : Stage) := rfl
  have hfail : seqCascade.stageTotal (normalizeIm seqCascade seqIm)
      (seqCascade.stages.getD 1 defaultStage) <
      (seqCascade.stages.getD 1 defaultStage).threshold := by
    rw [h1, seq_stage1]
    norm_num
  refine ⟨hfail, ?_⟩
  have h := ((detect_sequential seqCascade seqIm).1 1 (by norm_num [seqCascade])
    (fun j hj => by
      have hj0 : j = 0 := by omega
      subst hj0
      rw [h0, seq_stage0]
      norm_num) hfail).1
  rw [h]
  norm_num

theorem rej_stage0 : rejCascade.stageTotal (normalizeIm rejCascade seqIm)
    (⟨1, [⟨0, 2, 0, 0⟩]⟩ : Stage) = 0 := by
  rw [stageTotal_single, detectSum_one rejCascade rfl rfl]
  rw [show rectWeightSum (rejCascade.features.getD 0 []) 0 0 = 1 by
    norm_num [rejCascade, rectWeightSum], seq_im_get]
  norm_num

/-- **C5 counterexample**: `rejCascade` rejects the zero image at stage index
0 (its stage total 0 falls below the threshold 1), yet `detect` returns
`-0 = 0`, which is not negative: a rejection is not always distinguishable
from the accept result by sign. -/
theorem detect_negative_cex :
    rejCascade.stageTotal (normalizeIm rejCascade seqIm)
        (rejCascade.stages.getD 0 defaultStage) <
      (rejCascade.stages.getD 0 defaultStage).threshold ∧
    rejCascade.detect seqIm = 0 ∧ ¬ rejCascade.detect seqIm < 0 := by
  have h0 : rejCascade.stages.getD 0 defaultStage = (⟨1, [⟨0, 2, 0, 0⟩]⟩ : Stage) := rfl
  have hlt : rejCascade.stageTotal (normalizeIm rejCascade seqIm)
      (⟨1, [⟨0, 2, 0, 0⟩]⟩ : Stage) < (1 : ℚ) := by
    rw [rej_stage0]
    norm_num
  have hdet : rejCascade.detect seqIm = 0 := by
    rw [Cascade.detect, show rejCascade.stages = [⟨1, [⟨0, 2, 0, 0⟩]⟩] from rfl,
      detectLoop, if_pos hlt]
    norm_num
  exact ⟨by rw [h0]; exact hlt, hdet, by rw [hdet]; norm_num⟩

/-- **C5** (amended): a rejection at first failing 0-based stage index `i`
returns `-i`, which is nonpositive and distinct from the accept result 1 —
so rejections are always distinguishable from acceptance, but by the value
`≤ 0` rather than by strict sign: the result is negative exactly when
`i ≥ 1`, while rejection at stage 0 yields 0. -/
theorem detect_reject_nonpositive (cas : Cascade) (im : Grid) (i : ℕ)
    (hi : i < cas.stages.length)
    (hpass : ∀ j, j < i →
      ¬ cas.stageTotal (normalizeIm cas im) (cas.stages.getD j defaultStage) <
        (cas.stages.getD j defaultStage).threshold)
    (hfail : cas.stageTotal (normalizeIm cas im) (cas.stages.getD i defaultStage) <
      (cas.stages.getD i defaultStage).threshold) :
    cas.detect im = -(i : ℤ) ∧ cas.detect im ≤ 0 ∧ cas.detect im ≠ 1 ∧
      (0 < i → cas.detect im < 0) := by
  have h := detectLoop_first_fail cas (normalizeIm cas im) cas.stages 0 i hi hpass hfail
  rw [Cascade.detect, h]
  omega

/-- **C5 witness**: on `seqCascade` and the zero image the first failing stage
has index 1; `detect` returns `-1`, which is negative. -/
theorem detect_reject_nonpositive_witness :
    (seqCascade.stageTotal (normalizeIm seqCascade seqIm)
        (seqCascade.stages.getD 1 defaultStage) <
      (seqCascade.stages.getD 1 defaultStage).threshold) ∧
    seqCascade.detect seqIm ≤ 0 ∧ seqCascade.detect seqIm < 0 := by
  have h0 : seqCascade.stages.getD 0 defaultStage = (⟨0, [⟨0, 0, 0, 1⟩]⟩ : Stage) := rfl
  have h1 : seqCascade.stages.getD 1 defaultStage = (⟨1, [⟨0, 2, 0, 0⟩]⟩ : Stage) := rfl
  have hfail : seqCascade.stageTotal (normalizeIm seqCascade seqIm)
      (seqCascade.stages.getD 1 defaultStage) <
      (seqCascade.stages.getD 1 defaultStage).threshold := by
    rw [h1, seq_stage1]
    norm_num
  have h := detect_reject_nonpositive seqCascade seqIm 1 (by norm_num [seqCascade])
    (fun j hj => by
      have hj0 : j = 0 := by omega
      subst hj0
      rw [h0, seq_stage0]
      norm_num) hfail
  exact ⟨hfail, h.2.1, h.2.2.2 (by norm_num)⟩

/-- **C6**: additivity of feature expansion. In-grid cells of
`feature_to_array` hold the zero grid plus each rectangle's weight added over
its footprint in turn, i.e. the accumulated weight of every covering
rectangle; in particular, for a feature of two overlapping rectangles a cell
inside both footprints holds the sum of both weights, not either alone. -/
theorem feature_to_array_additive (cas : Cascade) (idx : ℕ) {r c : ℕ}
    (hr : r < cas.height) (hc : c < cas.width) :
    gridGet (cas.feature_to_array idx) r c =
      rectWeightSum (cas.features.getD idx []) r c ∧
    (∀ r1 r2 : Rect, cas.features.getD idx [] = [r1, r2] →
      (r1.y ≤ r ∧ r < r1.y + r1.h ∧ r1.x ≤ c ∧ c < r1.x + r1.w) →
      (r2.y ≤ r ∧ r < r2.y + r2.h ∧ r2.x ≤ c ∧ c < r2.x + r2.w) →
      gridGet (cas.feature_to_array idx) r c = r1.weight + r2.weight) := by
  refine ⟨gridGet_feature_to_array cas idx hr hc, ?_⟩
  intro r1 r2 hf h1 h2
  rw [gridGet_feature_to_array cas idx hr hc, hf, rectWeightSum]
  simp only [List.map_cons, List.map_nil, List.sum_cons, List.sum_nil, add_zero]
  rw [if_pos h1, if_pos h2]

/-- **C6 witness**: in `ovCascade`, cell (row 0, column 1) lies in both
rectangles' footprints and holds 3 + 5 = 8. -/
theorem feature_to_array_additive_witness :
    gridGet (ovCascade.feature_to_array 0) 0 1 = 8 := by
  have h := (@feature_to_array_additive ovCascade 0 0 1 (by decide) (by decide)).2
    ⟨0, 0, 2, 2, 3⟩ ⟨1, 0, 1, 2, 5⟩ rfl (by decide) (by decide)
  rw [h]
  norm_num

/-- **C9**: totality of feature expansion under out-of-range rectangles: the
returned grid always has `height` rows of `width` cells (the numpy slice
assignment silently clips each footprint to the array bounds — no
out-of-bounds error), and each in-bounds cell accumulates exactly the weights
of the rectangles covering it, the out-of-grid part of any footprint being
discarded. -/
theorem feature_to_array_total (cas : Cascade) (idx : ℕ) :
    (cas.feature_to_array idx).length = cas.height ∧
    (∀ r, r < cas.height → ((cas.feature_to_array idx).getD r []).length = cas.width) ∧
    ∀ r c, r < cas.height → c < cas.width →
      gridGet (cas.feature_to_array idx) r c =
        rectWeightSum (cas.features.getD idx []) r c := by
  obtain ⟨h1, h2⟩ := feature_to_array_shape cas idx
  exact ⟨h1, h2, fun r c hr hc => gridGet_feature_to_array cas idx hr hc⟩

/-- **C9 witness**: in `oobCascade` the rectangle's footprint extends beyond
the 1×1 grid; the expansion still has shape 1×1 and the single cell holds the
weight 2. -/
theorem feature_to_array_total_witness :
    (oobCascade.feature_to_array 0).length = 1 ∧
    ((oobCascade.feature_to_array 0).getD 0 []).length = 1 ∧
    gridGet (oobCascade.feature_to_array 0) 0 0 = 2 := by
  have h := feature_to_array_total oobCascade 0
  refine ⟨h.1, h.2.1 0 (by decide), ?_⟩
  rw [h.2.2 0 0 (by decide) (by decide)]
  norm_num [oobCascade, rectWeightSum]

/-- The source's zero-coefficient filter does not change the pixel sum. -/
theorem classifierPixelSum_eq_full (cas : Cascade) (idx : ℕ) (p : PixAssign) :
    classifierPixelSum cas idx p =
      ((List.range cas.height).map fun y =>
        ((List.range cas.width).map fun x =>
          p x y * gridGet (scaledFeatureArray cas idx) y x).sum).sum := by
  unfold classifierPixelSum
  congr 1
  apply List.map_congr_left
  intro y _
  congr 1
  apply List.map_congr_left
  intro x _
  split_ifs with h
  · rfl
  · rw [not_not] at h
    rw [h, mul_zero]

theorem modelConstraints_length (cas : Cascade) (eps : ℚ) :
    (modelConstraints cas eps).length =
      (cas.stages.map fun st => st.weak_classifiers.length + 1).sum := by
  rw [modelConstraints]
  induction cas.stages with
  | nil => rfl
  | cons st rest ih =>
    simp only [List.flatMap_cons, List.map_cons, List.sum_cons, List.length_append,
      List.length_map, List.length_cons, List.length_nil, ih]

/-- **C3**: per-classifier constraint emission. The built model holds exactly
one constraint per weak classifier plus one per stage, and the classifier's
constraint is satisfied exactly when the spec's inequality holds: with the
feature grid scaled by `1/(width×height)`, if `pass_val >= fail_val` the
constraint is `Σ pixel·featuregrid − (threshold+ε)·feature_var >= 0`, else
`Σ pixel·featuregrid + (threshold−ε)·feature_var <= threshold−ε`. -/
theorem classifier_constraint_form (cas : Cascade) (eps : ℚ) (cl : WeakClassifier)
    (p : PixAssign) (fv : FeatAssign) :
    ((classifierCon cas eps cl).sat p fv ↔ specClassifierConstraint cas eps cl p fv) ∧
    (modelConstraints cas eps).length =
      (cas.stages.map fun st => st.weak_classifiers.length + 1).sum := by
  refine ⟨?_, modelConstraints_length cas eps⟩
  unfold classifierCon specClassifierConstraint LinCon.sat
  rw [← classifierPixelSum_eq_full]
  by_cases hpf : cl.fail_val ≤ cl.pass_val
  · rw [if_pos hpf, if_pos (hpf : cl.pass_val ≥ cl.fail_val)]
    simp
  · rw [if_neg hpf, if_neg (hpf : ¬ cl.pass_val ≥ cl.fail_val)]
    simp

theorem modeled_score_eq (l : List WeakClassifier) (b : FeatAssign)
    (hb : ∀ cl ∈ l, b cl.feature_idx = 0 ∨ b cl.feature_idx = 1) :
    (l.map fun cl => (cl.pass_val - cl.fail_val) * b cl.feature_idx).sum +
      (l.map fun cl => cl.fail_val).sum =
      (l.map fun cl => if b cl.feature_idx = 1 then cl.pass_val else cl.fail_val).sum := by
  induction l with
  | nil => simp
  | cons cl t ih =>
    simp only [List.map_cons, List.sum_cons]
    rw [← ih fun x hx => hb x (List.mem_cons_of_mem _ hx)]
    rcases hb cl (List.mem_cons_self _ _) with h | h
    · simp only [h, mul_zero]
      rw [if_neg (by norm_num : ¬ (0:ℚ) = 1)]
      ring
    · simp only [h, mul_one, if_true]
      ring

/-- **C4**: stage-constraint algebraic exactness. For every stage and every
0/1 assignment `b` to the feature variables, the constraint's left-hand sum
`Σ (pass_val − fail_val)·b(feature_idx)` plus `Σ fail_val` equals the stage
score in which classifier `i` contributes `pass_val` when `b(feature_idx)=1`
and `fail_val` when 0; hence with `epsilon = 0` the emitted stage constraint
holds exactly when that score meets the stage threshold — the detector's
acceptance test. -/
theorem stage_constraint_exact (st : Stage) (p : PixAssign) (b : FeatAssign)
    (hb : ∀ cl ∈ st.weak_classifiers, b cl.feature_idx = 0 ∨ b cl.feature_idx = 1) :
    ((st.weak_classifiers.map fun cl => (cl.pass_val - cl.fail_val) * b cl.feature_idx).sum +
      (st.weak_classifiers.map fun cl => cl.fail_val).sum =
      (st.weak_classifiers.map fun cl =>
        if b cl.feature_idx = 1 then cl.pass_val else cl.fail_val).sum) ∧
    ((stageCon 0 st).sat p b ↔
      st.threshold ≤ (st.weak_classifiers.map fun cl =>
        if b cl.feature_idx = 1 then cl.pass_val else cl.fail_val).sum) := by
  have hsum := modeled_score_eq st.weak_classifiers b hb
  refine ⟨hsum, ?_⟩
  unfold stageCon LinCon.sat
  simp only [if_true]
  constructor
  · intro h
    linarith
  · intro h
    linarith

/-- **C4 witness**: the single-classifier stage `exStage` under the all-ones
assignment: the algebraic identity holds and the `epsilon = 0` stage
constraint is satisfied (score 2 meets threshold 1). -/
theorem stage_constraint_exact_witness :
    ((exStage.weak_classifiers.map fun cl =>
        (cl.pass_val - cl.fail_val) * exB cl.feature_idx).sum +
      (exStage.weak_classifiers.map fun cl => cl.fail_val).sum =
      (exStage.weak_classifiers.map fun cl =>
        if exB cl.feature_idx = 1 then cl.pass_val else cl.fail_val).sum) ∧
    (stageCon 0 exStage).sat posPix exB := by
  have h := stage_constraint_exact exStage posPix exB (fun cl _ => Or.inr rfl)
  refine ⟨h.1, h.2.mpr ?_⟩
  norm_num [exStage, exB]

/-- **C8 counterexample**: for the 1×1 `posCascade` and a solved pixel value 1
(the variable's upper bound), `find_min_face` returns the grid holding the raw
value 1, not a value rescaled to the `[0,255]` intensity range: the rescale
(`im *= 256.`) happens in the caller after `find_min_face` returns — and even
that rescale maps the bound 1 to 256, outside `[0,255]`. -/
theorem find_min_face_raw_cex :
    find_min_face posCascade (some fun _ _ => (1:ℚ)) = Except.ok [[(1:ℚ)]] ∧
    (1:ℚ) ≠ 256 * 1 ∧ (1:ℚ) ≠ 255 * 1 := by
  refine ⟨rfl, ?_, ?_⟩ <;> norm_num

/-- **C8** (amended): on solver success `find_min_face` returns the dense
height-by-width grid of the raw pixel-variable values, unscaled — cell
`(y, x)` is exactly `sol x y`, still on the solver's `[0,1]` scale whenever
the solution respects the variable bounds; the multiplication by 256 toward
the intensity range is performed by the caller on the returned grid. -/
theorem find_min_face_raw (cas : Cascade) (sol : PixAssign) (g : Grid)
    (h : find_min_face cas (some sol) = Except.ok g) :
    g.length = cas.height ∧
    (∀ r, r < cas.height → (g.getD r []).length = cas.width) ∧
    (∀ y x, y < cas.height → x < cas.width → gridGet g y x = sol x y) ∧
    ((∀ x y, x < cas.width → y < cas.height → 0 ≤ sol x y ∧ sol x y ≤ 1) →
      ∀ y x, y < cas.height → x < cas.width →
        0 ≤ gridGet g y x ∧ gridGet g y x ≤ 1) := by
  have hg : g = mkGrid cas.height cas.width fun y x => sol x y := by
    rw [find_min_face] at h
    exact (Except.ok.injEq _ _ ▸ h).symm
  subst hg
  obtain ⟨h1, h2⟩ := mkGrid_shape cas.height cas.width fun y x => sol x y
  refine ⟨h1, h2, ?_, ?_⟩
  · intro y x hy hx
    exact gridGet_mkGrid _ _ _ hy hx
  · intro hbnd y x hy hx
    rw [gridGet_mkGrid _ _ _ hy hx]
    exact hbnd x y hx hy

/-- **C8 witness**: the amended read-back property at the 1×1 `posCascade`
with solved value 1. -/
theorem find_min_face_raw_witness :
    find_min_face posCascade (some fun _ _ => (1:ℚ)) = Except.ok [[(1:ℚ)]] ∧
    gridGet [[(1:ℚ)]] 0 0 = 1 := by
  have h := find_min_face_raw posCascade (fun _ _ => 1) [[(1:ℚ)]] rfl
  exact ⟨rfl, h.2.2.1 0 0 (by decide) (by decide)⟩

theorem mapME_ok_forall {α β : Type} (f : α → Except String β) :
    ∀ (l : List α) (bs : List β), mapME f l = Except.ok bs →
      ∀ a ∈ l, ∃ b, f a = Except.ok b := by
  intro l
  induction l with
  | nil =>
    intro bs _ a ha
    exact absurd ha (List.not_mem_nil a)
  | cons x t ih =>
    intro bs h a ha
    rw [mapME] at h
    cases hfx : f x with
    | error e =>
      rw [hfx] at h
      exact absurd h (by simp [Bind.bind, Except.bind])
    | ok b =>
      rw [hfx] at h
      rcases List.mem_cons.mp ha with rfl | hat
      · exact ⟨b, hfx⟩
      · cases hmt : mapME f t with
        | error e =>
          rw [hmt] at h
          exact absurd h (by simp [Bind.bind, Except.bind])
        | ok bs' => exact ih bs' hmt a hat

theorem parseClassifier_ok_sentinel (intOf : String → Option ℕ)
    (floatOf : String → Option ℚ) (cn : ClassifierNode) (cl : WeakClassifier)
    (h : parseClassifier intOf floatOf cn = Except.ok cl) :
    cn.internalNodes.get? 0 = some "0" ∧ cn.internalNodes.get? 1 = some "-1" := by
  unfold parseClassifier at h
  split at h
  case h_2 => exact absurd h (by simp)
  case h_1 s0 s1 s2 s3 rest heq =>
    rw [heq]
    by_cases h0 : s0 = "0"
    · rw [if_pos h0] at h
      by_cases h1 : s1 = "-1"
      · rw [h0, h1]
        exact ⟨rfl, rfl⟩
      · rw [if_neg h1] at h
        exact absurd h (by simp)
    · rw [if_neg h0] at h
      exact absurd h (by simp)

/-- **C7**: loader rejection of unsupported node shapes. Whenever `load`
succeeds, every weak-classifier record's first two `internalNodes` tokens
exist and are the literal sentinels `"0"` and `"-1"`; contrapositively, a
description in which some record's first two tokens differ from the
sentinels fails to load — no `Cascade` is returned, and the record is not
silently ignored or accepted. -/
theorem load_sentinel (intOf : String → Option ℕ) (floatOf : String → Option ℚ)
    (desc : CascadeDesc) (cas : Cascade)
    (h : Cascade.load intOf floatOf desc = Except.ok cas) :
    ∀ sn ∈ desc.stages, ∀ cn ∈ sn.weakClassifiers,
      cn.internalNodes.get? 0 = some "0" ∧ cn.internalNodes.get? 1 = some "-1" := by
  intro sn hsn cn hcn
  unfold Cascade.load at h
  cases hw : parseNatWith intOf desc.width with
  | error e =>
    rw [hw] at h
    exact absurd h (by simp [Bind.bind, Except.bind])
  | ok wv =>
    rw [hw] at h
    cases hh : parseNatWith intOf desc.height with
    | error e =>
      rw [hh] at h
      exact absurd h (by simp [Bind.bind, Except.bind])
    | ok hv =>
      rw [hh] at h
      cases hs : mapME (parseStage intOf floatOf) desc.stages with
      | error e =>
        rw [hs] at h
        exact absurd h (by simp [Bind.bind, Except.bind])
      | ok sts =>
        obtain ⟨st, hst⟩ := mapME_ok_forall _ _ _ hs sn hsn
        unfold parseStage at hst
        cases hthr : parseFloatWith floatOf sn.stageThreshold with
        | error e =>
          rw [hthr] at hst
          exact absurd hst (by simp [Bind.bind, Except.bind])
        | ok thr =>
          rw [hthr] at hst
          cases hwcs : mapME (parseClassifier intOf floatOf) sn.weakClassifiers with
          | error e =>
            rw [hwcs] at hst
            exact absurd hst (by simp [Bind.bind, Except.bind])
          | ok wcs =>
            obtain ⟨cl, hcl⟩ := mapME_ok_forall _ _ _ hwcs cn hcn
            exact parseClassifier_ok_sentinel intOf floatOf cn cl hcl

/-- **C7 witness**: `exDesc` loads successfully, and `load_sentinel` confirms
its classifier record's first two tokens are the sentinels. -/
theorem load_sentinel_witness :
    Cascade.load exIntOf exFloatOf exDesc =
      Except.ok ⟨1, 1, [⟨1/2, [⟨0, 1/2, -1, 1⟩]⟩], [[⟨0, 0, 1, 1, 1⟩]]⟩ ∧
    (⟨["0", "-1", "0", "0.5"], ["-1.", "1."]⟩ : ClassifierNode).internalNodes.get? 0 =
      some "0" ∧
    (⟨["0", "-1", "0", "0.5"], ["-1.", "1."]⟩ : ClassifierNode).internalNodes.get? 1 =
      some "-1" := by
  have hload : Cascade.load exIntOf exFloatOf exDesc =
      Except.ok ⟨1, 1, [⟨1/2, [⟨0, 1/2, -1, 1⟩]⟩], [[⟨0, 0, 1, 1, 1⟩]]⟩ := rfl
  have h := load_sentinel exIntOf exFloatOf exDesc _ hload
    ⟨"0.5", [⟨["0", "-1", "0", "0.5"], ["-1.", "1."]⟩]⟩ (List.mem_cons_self _ _)
    ⟨["0", "-1", "0", "0.5"], ["-1.", "1."]⟩ (List.mem_cons_self _ _)
  exact ⟨hload, h⟩

theorem hread_append (hp : Heap) (l : List Grid) (a : ℕ) (ha : a < hp.length) :
    hread (hp ++ l) a = hread hp a := by
  unfold hread
  rw [List.getD_eq_getElem _ _ (by rw [List.length_append]; omega),
    List.getD_eq_getElem _ _ ha, List.getElem_append_left ha]

theorem hread_set_ne (hp : Heap) (i a : ℕ) (g : Grid) (h : i ≠ a) :
    hread (hp.set i g) a = hread hp a := by
  unfold hread
  simp [List.getD, List.getElem?_set_ne h]

/-- Model coherence: when the caller's image already has the cascade's shape,
the heap-level detector returns exactly `Cascade.detect` of that image. -/
theorem detectHeap_result (cas : Cascade) (resizeFn : Grid → ℕ → ℕ → Grid)
    (hp : Heap) (a : ℕ)
    (hsh : gridShape (hread hp a) = (cas.height, cas.width)) :
    (detectHeap cas resizeFn hp a).1 = cas.detect (hread hp a) := by
  have h1 : hread (hp ++ [hread hp a]) hp.length = hread hp a := by
    unfold hread
    rw [List.getD_eq_getElem _ _ (by simp)]
    simp
  have hrw : (detectHeap cas resizeFn hp a).1 =
      detectLoop cas (hread (hwrite (hp ++ [hread hp a]) hp.length
        (normalizeIm cas (hread (hp ++ [hread hp a]) hp.length))) hp.length)
        cas.stages 0 := by
    unfold detectHeap halloc
    rw [if_pos hsh]
  have h2 : hread (hwrite (hp ++ [hread hp a]) hp.length
      (normalizeIm cas (hread (hp ++ [hread hp a]) hp.length))) hp.length =
      normalizeIm cas (hread hp a) := by
    rw [h1]
    unfold hwrite hread
    rw [List.getD_eq_getElem _ _ (by simp)]
    simp
  rw [hrw, h2, Cascade.detect]

/-- **C10**: `detect` does not mutate its input. For every cascade, image
heap, valid caller address, and external resampler, the prelude's resize,
float conversion, and in-place normalization only ever write freshly
allocated arrays, so the caller's buffer after `detect` returns equals the
buffer before the call. -/
theorem detect_preserves_input (cas : Cascade) (resizeFn : Grid → ℕ → ℕ → Grid)
    (hp : Heap) (a : ℕ) (ha : a < hp.length) :
    hread (detectHeap cas resizeFn hp a).2 a = hread hp a := by
  by_cases hsh : gridShape (hread hp a) = (cas.height, cas.width)
  · have hrw : (detectHeap cas resizeFn hp a).2 =
        hwrite (hp ++ [hread hp a]) hp.length
          (normalizeIm cas (hread (hp ++ [hread hp a]) hp.length)) := by
      unfold detectHeap halloc
      rw [if_pos hsh]
    rw [hrw, hwrite, hread_set_ne _ _ _ _ (by omega), hread_append _ _ _ ha]
  · have hrw : (detectHeap cas resizeFn hp a).2 =
        hwrite ((hp ++ [resizeFn (hread hp a) cas.height cas.width]) ++
            [hread (hp ++ [resizeFn (hread hp a) cas.height cas.width]) hp.length])
          (hp ++ [resizeFn (hread hp a) cas.height cas.width]).length
          (normalizeIm cas
            (hread ((hp ++ [resizeFn (hread hp a) cas.height cas.width]) ++
                [hread (hp ++ [resizeFn (hread hp a) cas.height cas.width]) hp.length])
              (hp ++ [resizeFn (hread hp a) cas.height cas.width]).length)) := by
      unfold detectHeap halloc
      rw [if_neg hsh]
    rw [hrw, hwrite, hread_set_ne _ _ _ _ (by rw [List.length_append]; omega),
      hread_append _ _ _ (by rw [List.length_append]; omega), hread_append _ _ _ ha]

/-- **C10 witness**: a concrete one-buffer heap (the zero 1×1 image) passed to
`posCascade`'s detector with the identity resampler: the buffer is unchanged. -/
theorem detect_preserves_input_witness :
    hread (detectHeap posCascade (fun g _ _ => g) [seqIm] 0).2 0 = hread [seqIm] 0 :=
  detect_preserves_input posCascade (fun g _ _ => g) [seqIm] 0 (by decide)

end JpegFace
